import Mathlib

/-!
Shallow embedding of pythemes (src/pythemes/__main__.py): the query matcher
`find`, Python string replacement, the `App` update/validate/diff state
machine, the `Wallpaper` resolver, `SysOps.pid`, and the theme orchestration
(`process_theme` / `handle_theme_updates`).  Text is modelled as `List Char`
so every operation is executable; the on-disk file of an application is a
`FS` value (an existence flag plus the list of lines, line terminators
included in each line as `readlines` returns them).
-/

namespace Pythemes

/-- A Python string, modelled as its list of characters. -/
abbrev Str := List Char

/-- Python regex `\S`: a character that is not whitespace. -/
def nonspace (c : Char) : Bool := !c.isWhitespace

/-- The placeholder token `'{theme}'`. -/
def themePh : Str := "{theme}".data

/-- Splits a query at the first occurrence of the placeholder `'{theme}'`:
`some (pre, suf)` when the placeholder occurs (`pre`/`suf` the literal text
around it), `none` otherwise.  This models the pattern construction
`re.escape(query).replace('\{theme\}', '(\S+)')` of `find`
(src/pythemes/__main__.py:888) for queries with a single placeholder
occurrence, which every claim about the matcher assumes: all other
characters are literals and the placeholder becomes the capture group. -/
def splitTheme : Str → Option (Str × Str)
  | [] => none
  | c :: rest =>
    if themePh.isPrefixOf (c :: rest) then some ([], (c :: rest).drop themePh.length)
    else
      match splitTheme rest with
      | some (p, s) => some (c :: p, s)
      | none => none

/-- Python `'{theme}' in query` (substring containment). -/
def containsTheme (q : Str) : Bool := (splitTheme q).isSome

/-- The number of positions where the placeholder occurs in the query
(the placeholder has no self-overlap, so this is its occurrence count). -/
def countTheme : Str → Nat
  | [] => 0
  | c :: rest => (if themePh.isPrefixOf (c :: rest) then 1 else 0) + countTheme rest

/-- Backtracking of the greedy group `(\S+)`: `r` is the maximal run of
non-whitespace characters at the group position and `rest` what follows it;
the group tries the longest token first (`k` characters, `k` counting down)
and succeeds as soon as the literal suffix `suf` matches right after. -/
def findTokAux (r rest suf : Str) : Nat → Option Str
  | 0 => none
  | k + 1 =>
    if suf.isPrefixOf (r.drop (k + 1) ++ rest) then some (r.take (k + 1))
    else findTokAux r rest suf k

/-- One attempt of the compiled pattern `pre(\S+)suf` at the start of `s`:
the literal prefix must match, then the greedy group with backtracking. -/
def matchAt (pre suf s : Str) : Option Str :=
  if pre.isPrefixOf s then
    let s2 := s.drop pre.length
    let r := s2.takeWhile nonspace
    findTokAux r (s2.drop r.length) suf r.length
  else none

/-- `regex.search(line)`: the pattern is tried at each position from the
left; the leftmost successful position wins (its greedy capture returned). -/
def searchLine (pre suf : Str) : Str → Option Str
  | [] => matchAt pre suf []
  | c :: s =>
    match matchAt pre suf (c :: s) with
    | some t => some t
    | none => searchLine pre suf s

/-- The scan of `find` over the lines (src/pythemes/__main__.py:891-897):
first line on which the pattern matches wins; `(-1, '')` when none does. -/
def findAux (pre suf : Str) : List Str → Nat → Int × Str
  | [], _ => (-1, [])
  | l :: ls, i =>
    match searchLine pre suf l with
    | some t => ((i : Int), t)
    | none => findAux pre suf ls (i + 1)

/-- `find(query, list_strings)` (src/pythemes/__main__.py:873-897): the
guards return `(-1, '')` for an empty line list, an empty query, or a query
without the placeholder; otherwise the escaped query with the placeholder
replaced by `(\S+)` is searched line by line. -/
def find (query : Str) (list_strings : List Str) : Int × Str :=
  if list_strings.length = 0 then (-1, [])
  else if query = [] then (-1, [])
  else if !containsTheme query then (-1, [])
  else
    match splitTheme query with
    | some (pre, suf) => findAux pre suf list_strings 0
    | none => (-1, [])

/-- The loop of Python `s.replace(old, new)` for a non-empty `old`: every
non-overlapping occurrence, scanned left to right, is replaced.  `fuel`
bounds the recursion; `fuel = s.length` always suffices because each step
consumes at least one character of `s`. -/
def replLoop (old new : Str) : Nat → Str → Str
  | 0, s => s
  | _ + 1, [] => []
  | fuel + 1, c :: rest =>
    if old.isPrefixOf (c :: rest) then new ++ replLoop old new fuel ((c :: rest).drop old.length)
    else c :: replLoop old new fuel rest

/-- Python `s.replace(old, new)`.  With `old = ''` Python inserts `new`
before every character and at the end. -/
def pyReplace (s old new : Str) : Str :=
  if old = [] then new ++ s.foldr (fun c acc => c :: (new ++ acc)) []
  else replLoop old new s.length s

/-- Python list indexing `l[i]` with an `int` index: negative indices count
from the end.  Out-of-range access raises in Python; the flows embedded here
only index in range, and the model returns `[]` there. -/
def pyGet (l : List Str) (i : Int) : Str :=
  if i < 0 then l.getD (l.length - (-i).toNat) [] else l.getD i.toNat []

/-- Python list assignment `l[i] = v` with an `int` index (negative indices
count from the end; out of range is never reached in the embedded flows). -/
def pySet (l : List Str) (i : Int) (v : Str) : List Str :=
  if i < 0 then l.set (l.length - (-i).toNat) v else l.set i.toNat v

/-- `BaseError` (src/pythemes/__main__.py:78): a message and an occurred
flag attached to an `App` or `Wallpaper`. -/
structure BaseError where
  mesg : Str := []
  occurred : Bool := false
deriving Repr, DecidableEq

/-- The on-disk state of one application's target file: whether the path
exists and, when it does, the list of lines `Files.readlines` returns
(each line keeps its terminator). -/
structure FS where
  present : Bool := true
  lines : List Str := []
deriving Repr, DecidableEq

/-- `App` (src/pythemes/__main__.py:412): configuration fields plus the
mutable per-run state (`original`, `status`, `_line_idx`, `_next_theme`,
`error`, `_lines`).  The underscore-prefixed Python names lose the
underscore here.  `cmd` keeps only the command string (`Cmd.cmd`), `none`
standing for Python `None`. -/
structure App where
  name : Str := []
  file : Str := []
  query : Str := []
  light : Str := []
  dark : Str := []
  cmd : Option Str := none
  dry_run : Bool := false
  original : Str := []
  status : Str := []
  line_idx : Int := -1
  next_theme : Str := []
  error : BaseError := {}
  lines : List Str := []
deriving Repr, DecidableEq

/-- Status labels set by the `App` methods.  `colorize` only wraps the text
in ANSI codes (and is the identity when color is off), so statuses are
modelled as the plain strings. -/
def noChangesSt : Str := "no changes".data

def errNotUpdatedSt : Str := "err not updated".data

def dryRunSt : Str := "dry run".data

def appliedSt : Str := "applied".data

def hasErrSt : Str := "has err".data

/-- `App.find_current_theme` (src/pythemes/__main__.py:476-492): re-reads
the file (`read_lines`, raising `FileNotFoundError` when the path is
missing, modelled by the outer `none`), records an error for an empty file
or an unmatched query, and otherwise returns the index and captured value.
The dynamic error messages (they interpolate the path and query) are
modelled by fixed stand-in texts. -/
def App.find_current_theme (a : App) (fs : FS) : Option (App × Int × Option Str) :=
  if !fs.present then none
  else
    let a1 : App := { a with lines := fs.lines }
    if a1.lines = [] then
      some ({ a1 with error := ⟨"file is empty.".data, true⟩ }, -1, none)
    else
      let r := find a1.query a1.lines
      if r.1 = -1 then
        some ({ a1 with error := ⟨"query not found.".data, true⟩ }, -1, none)
      else some (a1, r.1, some r.2)

/-- `App.get_mode` (src/pythemes/__main__.py:521-530): `none` models the
Python `None` returned (with a logged error) for a mode that is neither
`'light'` nor `'dark'`. -/
def App.get_mode (a : App) (mode : Str) : Option Str :=
  if mode = "light".data then some a.light
  else if mode = "dark".data then some a.dark
  else none

/-- `App.determine_next_theme` (src/pythemes/__main__.py:494-502): `none`
models the raised `ThemeModeError`; Python `not theme_mode` is true both
for `None` and for an empty string.  The replacement is Python
`str.replace`, which replaces every occurrence in the matched line. -/
def App.determine_next_theme (a : App) (current_theme mode : Str) : Option Str :=
  match a.get_mode mode with
  | none => none
  | some theme_mode =>
    if theme_mode = [] then none
    else some (pyReplace (pyGet a.lines a.line_idx) current_theme theme_mode)

/-- `App.has_changes` (src/pythemes/__main__.py:504-519): `none` models a
propagated exception (missing file, invalid or empty mode value). -/
def App.has_changes (a : App) (fs : FS) (mode : Str) : Option (App × Bool) :=
  match a.find_current_theme fs with
  | none => none
  | some (a1, idx, cur?) =>
    match cur? with
    | none => some (a1, false)
    | some cur =>
      if idx = -1 then some (a1, false)
      else
        let a2 : App := { a1 with line_idx := idx, original := pyGet a1.lines idx }
        match a2.determine_next_theme cur mode with
        | none => none
        | some next_theme =>
          let a3 : App := { a2 with next_theme := next_theme }
          if cur = mode then some (a3, false)
          else some (a3, if a3.original = next_theme then false else true)

/-- `App.replace` (src/pythemes/__main__.py:469-474): in-memory replacement
of the line at `index`. -/
def App.replace (a : App) (index : Int) (string : Str) : App :=
  { a with lines := pySet a.lines index string }

/-- `App.update` (src/pythemes/__main__.py:447-467): no-op with status
`no changes` when `has_changes` is false, error status for an empty next
theme, dry-run status without touching the disk, otherwise the in-memory
line is replaced and `Files.savelines` rewrites the whole file from the
line list (the second component of the result is the disk afterwards). -/
def App.update (a : App) (fs : FS) (mode : Str) : Option (App × FS) :=
  match a.has_changes fs mode with
  | none => none
  | some (a1, false) => some ({ a1 with status := noChangesSt }, fs)
  | some (a1, true) =>
    if a1.next_theme = [] then some ({ a1 with status := errNotUpdatedSt }, fs)
    else if a1.dry_run then some ({ a1 with status := dryRunSt }, fs)
    else
      let a2 := a1.replace a1.line_idx a1.next_theme
      some ({ a2 with status := appliedSt }, { fs with lines := a2.lines })

/-- `App.validate` (src/pythemes/__main__.py:532-557): the file, query,
placeholder and path checks record an error and return early; the dark and
light checks record an error and fall through, each overwriting the message
of the previous check.  On full success `find_current_theme` runs eagerly.
The malformed-query message in the source reads
`"query does not contain placeholder \x7btheme\x7d."` with the token quoted. -/
def App.validate (a : App) (fs : FS) : App :=
  if a.file = [] then { a with error := ⟨"no file specified.".data, true⟩ }
  else
    let a1 : App := if a.dark = [] then { a with error := ⟨"no dark theme specified.".data, true⟩ } else a
    let a2 : App := if a1.light = [] then { a1 with error := ⟨"no light theme specified.".data, true⟩ } else a1
    if a2.query = [] then { a2 with error := ⟨"no query specified.".data, true⟩ }
    else if !containsTheme a2.query then
      { a2 with error := ⟨"query does not contain placeholder.".data, true⟩ }
    else if !fs.present then { a2 with error := ⟨"filepath does not exist.".data, true⟩ }
    else
      match a2.find_current_theme fs with
      | some (a3, _, _) => a3
      | none => a2

/-- The Python slice `l[a:b]` for non-negative bounds: elements from index
`a` up to but excluding index `b`. -/
def pySlice (l : List Str) (a b : Nat) : List Str := (l.take b).drop a

/-- `''.join` of a list of strings. -/
def joinStr : List Str → Str
  | [] => []
  | l :: ls => l ++ joinStr ls

/-- `App.diff` (src/pythemes/__main__.py:559-577) up to the context window:
outer `none` models a propagated exception, inner `none` the early returns
with an empty diff (empty mode, prior error, no changes); otherwise the
slice bounds `idx_start = max(0, i-2)` and `idx_end = min(len, i+2)` give
the original chunk and its substituted form.  The final rendering
(`Differ.changes_with_indicators`, difflib plus ANSI markup) is display
glue outside the embedding; the claim concerns the window. -/
def App.diff_chunks (a : App) (fs : FS) (mode : Str) : Option (Option (Str × Str)) :=
  if mode = [] then some none
  else if a.error.occurred then some none
  else
    match a.has_changes fs mode with
    | none => none
    | some (_, false) => some none
    | some (a1, true) =>
      let idx_start : Int := max 0 (a1.line_idx - 2)
      let idx_end : Int := min (a1.lines.length : Int) (a1.line_idx + 2)
      let original_chunk := joinStr (pySlice a1.lines idx_start.toNat idx_end.toNat)
      let new_chunk := pyReplace original_chunk a1.original a1.next_theme
      some (some (original_chunk, new_chunk))

/-- `Wallpaper` (src/pythemes/__main__.py:602): the three configured paths,
the apply command and the error state. -/
structure Wallpaper where
  dark : Str := []
  light : Str := []
  random : Str := []
  cmd : Str := []
  dry_run : Bool := false
  error : BaseError := {}
deriving Repr, DecidableEq

/-- The filesystem facts `Wallpaper` consults: the random directory
(existence, whether it is a regular file, its `glob('*.*')` entries) and a
regular-file test for arbitrary paths. -/
structure WallFS where
  randomExists : Bool := false
  randomIsFile : Bool := false
  randomFiles : List Str := []
  isFile : Str → Bool := fun _ => false

/-- What `Wallpaper.apply` did: skipped because of a recorded error, dry
run, or the external command it ran. -/
inductive WallOutcome where
  | skippedErr : WallOutcome
  | dryRun : WallOutcome
  | ran : Str → WallOutcome
deriving Repr, DecidableEq

/-- `Wallpaper.randx` (src/pythemes/__main__.py:616-628): raises (modelled
by `Except.error`) for a missing path, a non-directory, or an empty glob;
otherwise `random.choice` picks an entry, modelled by the oracle index
`pick` reduced modulo the number of entries. -/
def Wallpaper.randx (_ : Wallpaper) (fs : WallFS) (pick : Nat) : Except Str Str :=
  if !fs.randomExists then Except.error "random wallpaper path not found.".data
  else if fs.randomIsFile then Except.error "random wallpaper path is not a directory.".data
  else if fs.randomFiles = [] then Except.error "no files found in random wallpaper path.".data
  else Except.ok (fs.randomFiles.getD (pick % fs.randomFiles.length) [])

/-- `Wallpaper.get` (src/pythemes/__main__.py:663-677): the configured path
for `'light'` or `'dark'`, the fallback for any other mode. -/
def Wallpaper.get (w : Wallpaper) (mode : Str) (fallback : Str) : Str :=
  if mode = "light".data then w.light
  else if mode = "dark".data then w.dark
  else fallback

/-- `Wallpaper.apply` (src/pythemes/__main__.py:638-661): a recorded error
skips, a path that is not a regular file raises `InvalidFilePathError`,
dry-run returns before running, otherwise `SysOps.run(f'cmd path')` runs. -/
def Wallpaper.apply (w : Wallpaper) (fs : WallFS) (path : Str) : Except Str WallOutcome :=
  if w.error.occurred then Except.ok WallOutcome.skippedErr
  else if !fs.isFile path then Except.error "wallpaper is not a file".data
  else if w.dry_run then Except.ok WallOutcome.dryRun
  else Except.ok (WallOutcome.ran (w.cmd ++ " ".data ++ path))

/-- `Wallpaper.set` (src/pythemes/__main__.py:630-636):
`self.apply(self.get(mode, self.randx()))`.  Python evaluates the argument
`self.randx()` before calling `get`, for every mode, so a `randx` failure
propagates out of `set` even when the mode is `'light'` or `'dark'`. -/
def Wallpaper.set (w : Wallpaper) (fs : WallFS) (pick : Nat) (mode : Str) : Except Str WallOutcome :=
  match w.randx fs pick with
  | Except.error e => Except.error e
  | Except.ok fallback => w.apply fs (w.get mode fallback)

/-- Python `str.split()` with no argument: split on runs of whitespace,
discarding empty pieces.  `cur` accumulates the current word reversed. -/
def splitWsGo (cur : Str) : Str → List Str
  | [] => if cur = [] then [] else [cur.reverse]
  | c :: rest =>
    if c.isWhitespace then
      if cur = [] then splitWsGo [] rest else cur.reverse :: splitWsGo [] rest
    else splitWsGo (c :: cur) rest

/-- Python `s.split()`. -/
def splitWs (s : Str) : List Str := splitWsGo [] s

/-- Python `int(p)` on the decimal digit strings `pidof` prints. -/
def parseNat (s : Str) : Nat := s.foldl (fun acc c => acc * 10 + (c.toNat - 48)) 0

/-- `SysOps.pid` (src/pythemes/__main__.py:808-815): the external utility
`pidof` is run through `subprocess.check_output`, modelled by `lookup`:
`Except.ok out` is its stdout on exit status 0, `Except.error code` the
`CalledProcessError` check_output raises on a nonzero exit status (which
`pidof` uses to report that no process matched).  The code does not catch
the error, so it propagates; on success the output splits into pids. -/
def SysOps.pid (lookup : Except Nat Str) : Except Nat (List Nat) :=
  match lookup with
  | Except.error code => Except.error code
  | Except.ok out => Except.ok ((splitWs out).map parseNat)

/-- `process_app` (src/pythemes/__main__.py:978-988): an empty mode calls
`sys.exit(1)` (modelled by `none`), an app with a recorded error is skipped
with status `has err`, otherwise `update` runs (whose exception would also
propagate as `none`). -/
def process_app (a : App) (fs : FS) (mode : Str) : Option (App × FS) :=
  if mode = [] then none
  else if a.error.occurred then some ({ a with status := hasErrSt }, fs)
  else a.update fs mode

/-- The loop of `process_theme` (src/pythemes/__main__.py:1083-1096) over
the theme's applications, each paired with its own file: every app is
processed; apps whose error flag is set after processing are skipped;
otherwise the app's command is registered with the commander
(`Commander.add` registers `app.cmd` when it is not `None`) and
`theme.updates` is incremented.  Returns the processed pairs, the
registered commands and the final counter. -/
def process_theme_apps (mode : Str) : List (App × FS) → Option (List (App × FS) × List Str × Nat)
  | [] => some ([], [], 0)
  | (a, fs) :: rest =>
    match process_app a fs mode with
    | none => none
    | some (a1, fs1) =>
      match process_theme_apps mode rest with
      | none => none
      | some (ps, cs, n) =>
        if a1.error.occurred then some ((a1, fs1) :: ps, cs, n)
        else
          some ((a1, fs1) :: ps,
            (match a1.cmd with
             | some c => c :: cs
             | none => cs),
            n + 1)

/-- What `handle_theme_updates` executed after the wallpaper step. -/
structure Orchestration where
  entered : Bool := false
  modeCmdsRun : List Str := []
  appCmdsRun : List Str := []
  restartsSignalled : List Str := []
deriving Repr, DecidableEq

/-- `handle_theme_updates` (src/pythemes/__main__.py:1099-1118) after the
wallpaper step (which runs regardless): when `theme.has_updates` is false
(`updates = 0`) it prints and returns without running anything; otherwise
every mode command loads, the commander's collected commands run, and every
registered restart target is signalled. -/
def handle_theme_updates (updates : Nat) (modeCmds appCmds restarts : List Str) : Orchestration :=
  if updates = 0 then {}
  else ⟨true, modeCmds, appCmds, restarts⟩

/-- A line matches the literalized form of the query `pre ++ '{theme}' ++ suf`:
somewhere in the line the literal prefix is followed by one or more
non-whitespace characters (the token) and then by the literal suffix. -/
def LineMatches (pre suf l : Str) : Prop :=
  ∃ a t b : Str, l = a ++ pre ++ t ++ suf ++ b ∧ t ≠ [] ∧ ∀ c ∈ t, nonspace c = true

/-- A small configured application (query `T={theme}`) used for the concrete
witnesses and counterexamples below. -/
def appT (l d : Str) (dry : Bool) : App :=
  { name := "app".data
    file := "f".data
    query := "T={theme}".data
    light := l
    dark := d
    dry_run := dry }

def c2App : App := appT "L".data "D".data false

/-- A file whose matched line `T=T` captures the token `T`, which also
occurs inside the query prefix `T=`. -/
def c2FS : FS := { present := true, lines := ["T=T\n".data, "T=old\n".data] }

def c2Step : App × FS := (c2App.update c2FS "light".data).getD (c2App, c2FS)

def c2wApp : App := appT "L".data "D".data false

def c2wFS : FS := { present := true, lines := ["T=old\n".data] }

def c2wStep : App × FS := (c2wApp.update c2wFS "light".data).getD (c2wApp, c2wFS)

def c3App : App := appT "L".data "D".data true

def c3FS : FS := { present := true, lines := ["T=x\n".data] }

def c3Step : App × FS := (c3App.update c3FS "dark".data).getD (c3App, c3FS)

def c4App : App := appT "L".data "D".data false

def c4FS : FS := { present := true, lines := ["a\n".data, "T=x\n".data, "b\n".data] }

def c4Step : App × FS := (c4App.update c4FS "dark".data).getD (c4App, c4FS)

/-- An application whose dark and light values are both empty. -/
def c6App : App := appT [] [] false

def c6FileApp : App := { (appT "L".data "D".data false) with file := [] }

def c6FS : FS := { present := true, lines := ["T=x\n".data] }

def c7App : App := appT "L".data "D".data false

/-- Six lines with the matched line at index 2: the claimed window would be
lines 0-4, the code's window is lines 0-3. -/
def c7FS : FS :=
  { present := true
    lines := ["a\n".data, "b\n".data, "T=x\n".data, "d\n".data, "e\n".data, "g\n".data] }

/-- A wallpaper whose light and dark paths are configured and whose random
directory does not exist. -/
def c8W : Wallpaper :=
  { dark := "d.png".data
    light := "l.png".data
    random := "rnd".data
    cmd := "feh".data }

def c8FS : WallFS :=
  { randomExists := false
    randomIsFile := false
    randomFiles := []
    isFile := fun p => p == "l.png".data || p == "d.png".data }

/-- An application already at the dark value: processing it yields status
`no changes`, no error, and an unchanged file. -/
def c10App : App := appT "L".data "D".data false

def c10FS : FS := { present := true, lines := ["T=D\n".data] }

def c10Run : Option (List (App × FS) × List Str × Nat) :=
  process_theme_apps "dark".data [(c10App, c10FS)]

def c10Res : List (App × FS) × List Str × Nat := c10Run.getD ([], [], 0)

def c7Step : App × Bool := (c7App.has_changes c7FS "dark".data).getD (c7App, false)

section MatcherLemmas

lemma findTokAux_sound {r rest suf : Str} :
    ∀ k t, findTokAux r rest suf k = some t →
      ∃ j, 1 ≤ j ∧ j ≤ k ∧ t = r.take j ∧ suf.isPrefixOf (r.drop j ++ rest) = true := by
  intro k
  induction k with
  | zero => intro t h; simp [findTokAux] at h
  | succ k ih =>
    intro t h
    rw [findTokAux] at h
    by_cases hc : suf.isPrefixOf (r.drop (k + 1) ++ rest) = true
    · rw [if_pos hc] at h
      exact ⟨k + 1, by omega, le_refl _, (Option.some.inj h).symm, hc⟩
    · rw [if_neg hc] at h
      obtain ⟨j, h1, h2, h3, h4⟩ := ih t h
      exact ⟨j, h1, by omega, h3, h4⟩

lemma findTokAux_isSome {r rest suf : Str} :
    ∀ k j, 1 ≤ j → j ≤ k → suf.isPrefixOf (r.drop j ++ rest) = true →
      (findTokAux r rest suf k).isSome = true := by
  intro k
  induction k with
  | zero => intro j h1 h2 _; omega
  | succ k ih =>
    intro j h1 h2 h3
    rw [findTokAux]
    by_cases hc : suf.isPrefixOf (r.drop (k + 1) ++ rest) = true
    · rw [if_pos hc]; rfl
    · rw [if_neg hc]
      have hj : j ≤ k := by
        by_contra hgt
        have hje : j = k + 1 := by omega
        rw [hje] at h3
        exact hc h3
      exact ih j h1 hj h3

lemma prefix_takeWhile_of {p : Char → Bool} :
    ∀ t l : Str, t <+: l → (∀ c ∈ t, p c = true) → t <+: l.takeWhile p := by
  intro t
  induction t with
  | nil => intro l _ _; exact List.nil_prefix
  | cons c t2 ih =>
    intro l hpre hall
    obtain ⟨u, hu⟩ := hpre
    subst hu
    rw [List.cons_append, List.takeWhile_cons, hall c (List.mem_cons_self c _)]
    exact List.cons_prefix_cons.mpr ⟨rfl, ih (t2 ++ u) (List.prefix_append t2 u)
      (fun c2 hc2 => hall c2 (List.mem_cons_of_mem _ hc2))⟩

lemma matchAt_sound {pre suf s t : Str} (h : matchAt pre suf s = some t) :
    t ≠ [] ∧ (∀ c ∈ t, nonspace c = true) ∧ ∃ b, s = pre ++ t ++ suf ++ b := by
  unfold matchAt at h
  by_cases hp : pre.isPrefixOf s
  case neg =>
    rw [if_neg hp] at h
    exact absurd h (by simp)
  rw [if_pos hp] at h
  simp only [] at h
  obtain ⟨u, hu⟩ := List.isPrefixOf_iff_prefix.mp hp
  have hs2 : s.drop pre.length = u := by rw [← hu, List.drop_left]
  rw [hs2] at h
  obtain ⟨j, hj1, hj2, rfl, hsuf⟩ := findTokAux_sound _ _ h
  have hlen : (List.take j (u.takeWhile nonspace)).length = j := by
    rw [List.length_take]; omega
  refine ⟨?_, ?_, ?_⟩
  · intro heq
    rw [heq] at hlen
    simp at hlen
    omega
  · intro c hc
    exact List.mem_takeWhile_imp (List.take_subset j _ hc)
  · obtain ⟨b, hb⟩ := List.isPrefixOf_iff_prefix.mp hsuf
    refine ⟨b, ?_⟩
    obtain ⟨v, hv⟩ := List.takeWhile_prefix (l := u) nonspace
    have hdv := congrArg (List.drop (u.takeWhile nonspace).length) hv
    rw [List.drop_left] at hdv
    rw [← hdv] at hb
    calc s = pre ++ u := hu.symm
      _ = pre ++ (u.takeWhile nonspace ++ v) := by rw [hv]
      _ = pre ++ ((List.take j (u.takeWhile nonspace) ++
            List.drop j (u.takeWhile nonspace)) ++ v) := by
            rw [List.take_append_drop]
      _ = pre ++ (List.take j (u.takeWhile nonspace) ++ (suf ++ b)) := by
            rw [List.append_assoc, ← hb]
      _ = pre ++ List.take j (u.takeWhile nonspace) ++ suf ++ b := by
            simp [List.append_assoc]

lemma matchAt_isSome {pre suf t b : Str} (ht : t ≠ []) (hsp : ∀ c ∈ t, nonspace c = true) :
    (matchAt pre suf (pre ++ t ++ suf ++ b)).isSome = true := by
  have hx : pre ++ t ++ suf ++ b = pre ++ (t ++ (suf ++ b)) := by simp [List.append_assoc]
  rw [hx]
  have hp : pre.isPrefixOf (pre ++ (t ++ (suf ++ b))) = true :=
    List.isPrefixOf_iff_prefix.mpr (List.prefix_append _ _)
  unfold matchAt
  rw [if_pos hp]
  simp only []
  rw [List.drop_left]
  set X := t ++ (suf ++ b) with hX
  set r := X.takeWhile nonspace with hr
  have htX : t <+: X := List.prefix_append _ _
  have htr : t <+: r := prefix_takeWhile_of t X htX hsp
  have hjlen : t.length ≤ r.length := htr.length_le
  have hj1 : 1 ≤ t.length := List.length_pos.mpr ht
  refine findTokAux_isSome r.length t.length hj1 hjlen ?_
  have hrX : r = X.take r.length := List.prefix_iff_eq_take.mp (List.takeWhile_prefix nonspace)
  have hdrop1 : r.drop t.length = (X.drop t.length).take (r.length - t.length) := by
    conv_lhs => rw [hrX]
    rw [List.drop_take]
  have hdrop2 : X.drop r.length = (X.drop t.length).drop (r.length - t.length) := by
    rw [List.drop_drop]
    congr 1
    omega
  rw [hdrop1, hdrop2, List.take_append_drop]
  have : X.drop t.length = suf ++ b := by rw [hX, List.drop_left]
  rw [this]
  exact List.isPrefixOf_iff_prefix.mpr (List.prefix_append _ _)

lemma searchLine_sound {pre suf : Str} :
    ∀ l t, searchLine pre suf l = some t →
      t ≠ [] ∧ (∀ c ∈ t, nonspace c = true) ∧ ∃ a b, l = a ++ pre ++ t ++ suf ++ b := by
  intro l
  induction l with
  | nil =>
    intro t h
    rw [searchLine] at h
    obtain ⟨h1, h2, b, h3⟩ := matchAt_sound h
    exact ⟨h1, h2, [], b, h3⟩
  | cons c s ih =>
    intro t h
    rw [searchLine] at h
    rcases hm : matchAt pre suf (c :: s) with _ | t2
    · rw [hm] at h
      obtain ⟨h1, h2, a, b, h3⟩ := ih t h
      exact ⟨h1, h2, c :: a, b, by rw [List.cons_append, List.cons_append, List.cons_append,
        List.cons_append, ← h3]⟩
    · rw [hm] at h
      obtain rfl := Option.some.inj h
      obtain ⟨h1, h2, b, h3⟩ := matchAt_sound hm
      exact ⟨h1, h2, [], b, by simpa using h3⟩

lemma searchLine_isSome_of {pre suf : Str} :
    ∀ a l t b, l = a ++ pre ++ t ++ suf ++ b → t ≠ [] → (∀ c ∈ t, nonspace c = true) →
      (searchLine pre suf l).isSome = true := by
  intro a
  induction a with
  | nil =>
    intro l t b hl ht hsp
    simp only [List.nil_append] at hl
    subst hl
    have hm := @matchAt_isSome pre suf t b ht hsp
    cases hpe : pre ++ t ++ suf ++ b with
    | nil =>
      rw [hpe] at hm
      rw [searchLine]
      exact hm
    | cons c s =>
      rw [hpe] at hm
      rw [searchLine]
      rcases hmm : matchAt pre suf (c :: s) with _ | t2
      · rw [hmm] at hm; simp at hm
      · rfl
  | cons c a2 ih =>
    intro l t b hl ht hsp
    cases l with
    | nil => exact absurd hl (by simp)
    | cons c2 s =>
      simp only [List.cons_append] at hl
      have hs : s = a2 ++ pre ++ t ++ suf ++ b := (List.cons.inj hl).2
      rw [searchLine]
      rcases hmm : matchAt pre suf (c2 :: s) with _ | t2
      · exact ih s t b hs ht hsp
      · rfl

lemma lineMatches_iff {pre suf l : Str} :
    LineMatches pre suf l ↔ (searchLine pre suf l).isSome = true := by
  constructor
  · rintro ⟨a, t, b, hl, ht, hsp⟩
    exact searchLine_isSome_of a l t b hl ht hsp
  · intro h
    rcases hs : searchLine pre suf l with _ | t
    · rw [hs] at h; simp at h
    · obtain ⟨h1, h2, a, b, h3⟩ := searchLine_sound l t hs
      exact ⟨a, t, b, h3, h1, h2⟩

lemma findAux_spec {pre suf : Str} :
    ∀ (ls : List Str) (n : Nat), (∃ l ∈ ls, (searchLine pre suf l).isSome = true) →
      ∃ (j : Nat) (tok : Str), findAux pre suf ls n = (((n + j : Nat) : Int), tok) ∧
        j < ls.length ∧ searchLine pre suf (ls.getD j []) = some tok ∧
        ∀ k, k < j → searchLine pre suf (ls.getD k []) = none := by
  intro ls
  induction ls with
  | nil => intro n h; simp at h
  | cons l ls ih =>
    intro n hex
    rw [findAux]
    rcases hm : searchLine pre suf l with _ | tok
    · have hex2 : ∃ l2 ∈ ls, (searchLine pre suf l2).isSome = true := by
        obtain ⟨l2, hmem, hsome⟩ := hex
        rcases List.mem_cons.mp hmem with rfl | hmem2
        · rw [hm] at hsome; simp at hsome
        · exact ⟨l2, hmem2, hsome⟩
      obtain ⟨j, tok, h1, h2, h3, h4⟩ := ih (n + 1) hex2
      have hn : n + 1 + j = n + (j + 1) := by omega
      refine ⟨j + 1, tok, ?_, by simpa using h2, by simpa using h3, ?_⟩
      · rw [h1, hn]
      · intro k hk
        cases k with
        | zero => simpa using hm
        | succ k2 => simpa using h4 k2 (by omega)
    · exact ⟨0, tok, by simp, by simp, by simpa using hm,
        fun k hk => absurd hk (Nat.not_lt_zero k)⟩

lemma findAux_inv {pre suf : Str} :
    ∀ (ls : List Str) (n : Nat) (i : Int) (tok : Str),
      findAux pre suf ls n = (i, tok) → i ≠ -1 →
      ∃ j : Nat, i = ((n + j : Nat) : Int) ∧ j < ls.length ∧
        searchLine pre suf (ls.getD j []) = some tok ∧
        ∀ k, k < j → searchLine pre suf (ls.getD k []) = none := by
  intro ls
  induction ls with
  | nil =>
    intro n i tok h hi
    rw [findAux] at h
    have := (Prod.mk.injEq _ _ _ _).mp h
    exact absurd this.1.symm hi
  | cons l ls ih =>
    intro n i tok h hi
    rw [findAux] at h
    rcases hm : searchLine pre suf l with _ | tok2
    · rw [hm] at h
      obtain ⟨j, h1, h2, h3, h4⟩ := ih (n + 1) i tok h hi
      have hn : n + 1 + j = n + (j + 1) := by omega
      refine ⟨j + 1, by rw [h1, hn], by simpa using h2, by simpa using h3, ?_⟩
      intro k hk
      cases k with
      | zero => simpa using hm
      | succ k2 => simpa using h4 k2 (by omega)
    · rw [hm] at h
      obtain ⟨hn, ht⟩ := (Prod.mk.injEq _ _ _ _).mp h
      subst ht
      exact ⟨0, by omega, by simp, by simpa using hm,
        fun k hk => absurd hk (Nat.not_lt_zero k)⟩

lemma splitTheme_ne_nil {q pre suf : Str} (h : splitTheme q = some (pre, suf)) : q ≠ [] := by
  intro hq
  subst hq
  simp [splitTheme] at h

lemma find_eq_findAux {q pre suf : Str} (hsplit : splitTheme q = some (pre, suf))
    {ls : List Str} (hne : ls ≠ []) : find q ls = findAux pre suf ls 0 := by
  unfold find
  rw [if_neg (by simpa using hne), if_neg (splitTheme_ne_nil hsplit), if_neg, hsplit]
  simp [containsTheme, hsplit]

lemma find_inv {q : Str} {ls : List Str} {i : Int} {tok : Str}
    (h : find q ls = (i, tok)) (hi : i ≠ -1) :
    ∃ pre suf, splitTheme q = some (pre, suf) ∧
      ∃ j : Nat, i = (j : Int) ∧ j < ls.length ∧
        searchLine pre suf (ls.getD j []) = some tok ∧
        ∀ k, k < j → searchLine pre suf (ls.getD k []) = none := by
  unfold find at h
  by_cases h0 : ls.length = 0
  · rw [if_pos h0] at h
    exact absurd ((Prod.mk.injEq _ _ _ _).mp h).1.symm hi
  rw [if_neg h0] at h
  by_cases h1 : q = []
  · rw [if_pos h1] at h
    exact absurd ((Prod.mk.injEq _ _ _ _).mp h).1.symm hi
  rw [if_neg h1] at h
  by_cases h2 : (!containsTheme q) = true
  · rw [if_pos h2] at h
    exact absurd ((Prod.mk.injEq _ _ _ _).mp h).1.symm hi
  rw [if_neg h2] at h
  have hsome : (splitTheme q).isSome = true := by
    have hnn : ¬splitTheme q = none := by simpa [containsTheme] using h2
    rcases hv : splitTheme q with _ | v
    · exact absurd hv hnn
    · rfl
  obtain ⟨⟨pre, suf⟩, hps⟩ := Option.isSome_iff_exists.mp hsome
  rw [hps] at h
  obtain ⟨j, hj1, hj2, hj3, hj4⟩ := findAux_inv ls 0 i tok h hi
  exact ⟨pre, suf, hps, j, by simpa using hj1, hj2, hj3, hj4⟩

end MatcherLemmas

section AppLemmas

lemma find_current_theme_pos_inv {a : App} {fs : FS} {a1 : App} {idx : Int} {cur : Str}
    (h : a.find_current_theme fs = some (a1, idx, some cur)) :
    fs.present = true ∧ fs.lines ≠ [] ∧ find a.query fs.lines = (idx, cur) ∧
      idx ≠ -1 ∧ a1 = { a with lines := fs.lines } := by
  unfold App.find_current_theme at h
  cases hp : fs.present with
  | false => rw [hp] at h; simp at h
  | true =>
    rw [hp] at h
    simp only [Bool.not_true, Bool.false_eq_true, if_false] at h
    by_cases hemp : fs.lines = []
    · simp [hemp] at h
    · rw [if_neg (by simpa using hemp)] at h
      by_cases hneg : (find a.query fs.lines).1 = -1
      · rw [if_pos hneg] at h
        simp at h
      · rw [if_neg hneg] at h
        simp only [Option.some.injEq, Prod.mk.injEq] at h
        obtain ⟨ha1, hidx, hcur⟩ := h
        refine ⟨rfl, hemp, ?_, ?_, ha1.symm⟩
        · rw [← hidx, ← hcur]
        · rw [← hidx]; exact hneg

lemma determine_next_theme_inv {a : App} {cur mode nt : Str}
    (h : a.determine_next_theme cur mode = some nt) :
    ∃ tm, a.get_mode mode = some tm ∧ tm ≠ [] ∧
      nt = pyReplace (pyGet a.lines a.line_idx) cur tm := by
  unfold App.determine_next_theme at h
  split at h
  · simp at h
  next tm heq =>
    split at h
    · simp at h
    next htm => exact ⟨tm, heq, htm, (Option.some.inj h).symm⟩

lemma has_changes_true_inv {a : App} {fs : FS} {mode : Str} {a1 : App}
    (h : a.has_changes fs mode = some (a1, true)) :
    fs.present = true ∧ fs.lines ≠ [] ∧
    ∃ (idx : Int) (cur tm : Str),
      find a.query fs.lines = (idx, cur) ∧ idx ≠ -1 ∧
      a.get_mode mode = some tm ∧ tm ≠ [] ∧
      a1 = { a with
             lines := fs.lines
             line_idx := idx
             original := pyGet fs.lines idx
             next_theme := pyReplace (pyGet fs.lines idx) cur tm } ∧
      cur ≠ mode ∧ pyGet fs.lines idx ≠ pyReplace (pyGet fs.lines idx) cur tm := by
  unfold App.has_changes at h
  split at h
  · simp at h
  next a0 idx cur? heq =>
    simp only [] at h
    split at h
    · simp at h
    next cur =>
      split at h
      · simp at h
      next hidx =>
        split at h
        · simp at h
        next nt heqd =>
          split at h
          · simp at h
          next hcm =>
            split at h
            · simp at h
            next horig =>
              simp only [Option.some.injEq, Prod.mk.injEq, and_true] at h
              obtain ⟨hp, hne, hfind, -, ha0⟩ := find_current_theme_pos_inv heq
              subst ha0
              obtain ⟨tm, hg, htm, hnt⟩ := determine_next_theme_inv heqd
              simp only [] at hg hnt horig
              refine ⟨hp, hne, idx, cur, tm, hfind, hidx, ?_, htm, ?_, hcm, ?_⟩
              · simpa [App.get_mode] using hg
              · rw [← h, hnt]
              · rw [← hnt]
                simpa using horig



lemma find_current_theme_some_fields {a : App} {fs : FS} {a0 : App} {idx : Int}
    {cur? : Option Str} (h : a.find_current_theme fs = some (a0, idx, cur?)) :
    a0.query = a.query ∧ a0.light = a.light ∧ a0.dark = a.dark ∧
      a0.dry_run = a.dry_run ∧ a0.lines = fs.lines ∧ fs.present = true := by
  unfold App.find_current_theme at h
  cases hp : fs.present with
  | false => rw [hp] at h; simp at h
  | true =>
    rw [hp] at h
    simp only [Bool.not_true, Bool.false_eq_true, if_false] at h
    by_cases hemp : fs.lines = []
    · rw [if_pos (by simpa using hemp)] at h
      simp only [Option.some.injEq, Prod.mk.injEq] at h
      obtain ⟨ha0, -, -⟩ := h
      rw [← ha0]
      exact ⟨rfl, rfl, rfl, rfl, rfl, rfl⟩
    · rw [if_neg (by simpa using hemp)] at h
      by_cases hneg : (find a.query fs.lines).1 = -1
      · rw [if_pos hneg] at h
        simp only [Option.some.injEq, Prod.mk.injEq] at h
        obtain ⟨ha0, -, -⟩ := h
        rw [← ha0]
        exact ⟨rfl, rfl, rfl, rfl, rfl, rfl⟩
      · rw [if_neg hneg] at h
        simp only [Option.some.injEq, Prod.mk.injEq] at h
        obtain ⟨ha0, -, -⟩ := h
        rw [← ha0]
        exact ⟨rfl, rfl, rfl, rfl, rfl, rfl⟩

lemma has_changes_some_fields {a : App} {fs : FS} {mode : Str} {a1 : App} {b : Bool}
    (h : a.has_changes fs mode = some (a1, b)) :
    a1.query = a.query ∧ a1.light = a.light ∧ a1.dark = a.dark ∧
      a1.dry_run = a.dry_run ∧ a1.lines = fs.lines ∧ fs.present = true := by
  unfold App.has_changes at h
  split at h
  · simp at h
  next a0 idx cur? heq =>
    obtain ⟨hq, hl, hd, hdr, hlines, hp⟩ := find_current_theme_some_fields heq
    split at h
    · simp only [Option.some.injEq, Prod.mk.injEq] at h
      rw [← h.1]
      exact ⟨hq, hl, hd, hdr, hlines, hp⟩
    next cur =>
      split at h
      · simp only [Option.some.injEq, Prod.mk.injEq] at h
        rw [← h.1]
        exact ⟨hq, hl, hd, hdr, hlines, hp⟩
      next hidx =>
        split at h <;>
          (simp only [] at h
           split at h
           · simp at h
           next nt heqd =>
             simp only [Option.some.injEq, Prod.mk.injEq] at h
             rw [← h.1]
             simpa using ⟨hq, hl, hd, hdr, hlines, hp⟩)

lemma update_inv {a : App} {fs : FS} {mode : Str} {a2 : App} {fs2 : FS}
    (h : a.update fs mode = some (a2, fs2)) :
    (∃ a1, a.has_changes fs mode = some (a1, false) ∧
       a2 = { a1 with status := noChangesSt } ∧ fs2 = fs) ∨
    (∃ a1, a.has_changes fs mode = some (a1, true) ∧ a1.next_theme = [] ∧
       a2 = { a1 with status := errNotUpdatedSt } ∧ fs2 = fs) ∨
    (∃ a1, a.has_changes fs mode = some (a1, true) ∧ a1.next_theme ≠ [] ∧ a1.dry_run = true ∧
       a2 = { a1 with status := dryRunSt } ∧ fs2 = fs) ∨
    (∃ a1, a.has_changes fs mode = some (a1, true) ∧ a1.next_theme ≠ [] ∧ a1.dry_run = false ∧
       a2 = { a1.replace a1.line_idx a1.next_theme with status := appliedSt } ∧
       fs2 = { fs with lines := pySet a1.lines a1.line_idx a1.next_theme }) := by
  unfold App.update at h
  split at h
  · simp at h
  next a1 heq =>
    simp only [Option.some.injEq, Prod.mk.injEq] at h
    exact Or.inl ⟨a1, heq, h.1.symm, h.2.symm⟩
  next a1 heq =>
    split at h
    next hnt =>
      simp only [Option.some.injEq, Prod.mk.injEq] at h
      exact Or.inr (Or.inl ⟨a1, heq, hnt, h.1.symm, h.2.symm⟩)
    next hnt =>
      split at h
      next hdr =>
        simp only [Option.some.injEq, Prod.mk.injEq] at h
        exact Or.inr (Or.inr (Or.inl ⟨a1, heq, hnt, hdr, h.1.symm, h.2.symm⟩))
      next hdr =>
        simp only [Option.some.injEq, Prod.mk.injEq] at h
        refine Or.inr (Or.inr (Or.inr ⟨a1, heq, hnt, by simpa using hdr, h.1.symm, ?_⟩))
        rw [← h.2]
        simp [App.replace]


end AppLemmas

/-- C1: for every query containing exactly one `{theme}` placeholder (its
literal prefix and suffix given by `splitTheme`) and every list of lines in
which some line matches the literalized query, `find` returns the index of
the first matching line together with the captured token: a non-empty
string of non-whitespace characters which, substituted at the placeholder
position, occurs in that line. -/
theorem C1_find_first_match (query pre suf : Str) (lines : List Str)
    (hsplit : splitTheme query = some (pre, suf))
    (hone : countTheme query = 1)
    (i : Nat) (hi : i < lines.length)
    (hmatch : LineMatches pre suf (lines.getD i [])) :
    ∃ (j : Nat) (tok : Str), find query lines = ((j : Int), tok) ∧
      j ≤ i ∧ j < lines.length ∧
      LineMatches pre suf (lines.getD j []) ∧
      (∀ k, k < j → ¬ LineMatches pre suf (lines.getD k [])) ∧
      tok ≠ [] ∧ (∀ c ∈ tok, nonspace c = true) ∧
      (pre ++ tok ++ suf) <:+: lines.getD j [] := by
  have hne : lines ≠ [] := by
    intro h
    rw [h] at hi
    simp at hi
  have hmem : lines.getD i [] ∈ lines := by
    rw [List.getD_eq_getElem?_getD, List.getElem?_eq_getElem hi]
    exact List.getElem_mem hi
  have hex : ∃ l ∈ lines, (searchLine pre suf l).isSome = true :=
    ⟨lines.getD i [], hmem, lineMatches_iff.mp hmatch⟩
  obtain ⟨j, tok, h1, h2, h3, h4⟩ := findAux_spec lines 0 hex
  rw [← find_eq_findAux hsplit hne] at h1
  have hji : j ≤ i := by
    by_contra hgt
    have := h4 i (by omega)
    have hs := lineMatches_iff.mp hmatch
    rw [this] at hs
    simp at hs
  obtain ⟨htok, hsp, a, b, hdec⟩ := searchLine_sound _ _ h3
  refine ⟨j, tok, by simpa using h1, hji, h2, lineMatches_iff.mpr (by rw [h3]; rfl), ?_, htok, hsp, ?_⟩
  · intro k hk hLM
    have := h4 k hk
    have hs := lineMatches_iff.mp hLM
    rw [this] at hs
    simp at hs
  · exact ⟨a, b, by rw [hdec]; simp [List.append_assoc]⟩

/-- C1 witness: the query `T={theme}` on the lines `a\n`, `T=x\n` finds the
match at index 1 with captured token `x`. -/
theorem C1_find_first_match_witness :
    ∃ (j : Nat) (tok : Str), find "T={theme}".data ["a\n".data, "T=x\n".data] = ((j : Int), tok) ∧
      j ≤ 1 ∧ j < ["a\n".data, "T=x\n".data].length ∧
      LineMatches "T=".data [] (["a\n".data, "T=x\n".data].getD j []) ∧
      (∀ k, k < j → ¬ LineMatches "T=".data [] (["a\n".data, "T=x\n".data].getD k [])) ∧
      tok ≠ [] ∧ (∀ c ∈ tok, nonspace c = true) ∧
      ("T=".data ++ tok ++ []) <:+: ["a\n".data, "T=x\n".data].getD 1 [] := by
  have h := C1_find_first_match "T={theme}".data "T=".data [] ["a\n".data, "T=x\n".data]
    (by decide) (by decide) 1 (by decide)
    ⟨[], "x".data, "\n".data, by decide, by decide, by decide⟩
  obtain ⟨j, tok, h1, h2, h3, h4, h5, h6, h7, h8⟩ := h
  have hj1 : j = 1 := by
    have h1e : find "T={theme}".data ["a\n".data, "T=x\n".data] = (1, "x".data) := by decide
    rw [h1e] at h1
    have := ((Prod.mk.injEq _ _ _ _).mp h1).1
    omega
  subst hj1
  exact ⟨1, tok, h1, h2, h3, h4, h5, h6, h7, h8⟩

/-- C5: `find` is total on degenerate inputs: an empty line list, an empty
query, or a query without the `{theme}` placeholder give the sentinel
`(-1, '')`; no exception is raised (the embedding is a total function). -/
theorem C5_find_degenerate (query : Str) (lines : List Str)
    (h : lines = [] ∨ query = [] ∨ containsTheme query = false) :
    find query lines = (-1, []) := by
  rcases h with h | h | h
  · subst h
    simp [find]
  · subst h
    unfold find
    by_cases h0 : lines.length = 0
    · rw [if_pos h0]
    · rw [if_neg h0, if_pos rfl]
  · unfold find
    by_cases h0 : lines.length = 0
    · rw [if_pos h0]
    · rw [if_neg h0]
      by_cases h1 : query = []
      · rw [if_pos h1]
      · rw [if_neg h1, if_pos (by simp [h])]

/-- C5 witness: a query without the placeholder on a non-empty line list. -/
theorem C5_find_degenerate_witness :
    find "abc".data ["x".data] = (-1, []) :=
  C5_find_degenerate "abc".data ["x".data] (Or.inr (Or.inr (by decide)))

/-- C3: with dry-run enabled, `update` performs no disk write: whenever it
returns (no exception), the on-disk state it returns is the input state
unchanged, regardless of what `has_changes` reported. -/
theorem C3_dry_run_no_write (a : App) (fs : FS) (mode : Str) (a2 : App) (fs2 : FS)
    (hdry : a.dry_run = true) (hupd : a.update fs mode = some (a2, fs2)) :
    fs2 = fs := by
  rcases update_inv hupd with ⟨a1, h1, h2, h3⟩ | ⟨a1, h1, h2, h3, h4⟩ |
    ⟨a1, h1, h2, h3, h4, h5⟩ | ⟨a1, h1, h2, h3, h4, h5⟩
  · exact h3
  · exact h4
  · exact h5
  · obtain ⟨-, -, -, hdr1, -, -⟩ := has_changes_some_fields h1
    rw [hdry] at hdr1
    rw [h3] at hdr1
    simp at hdr1

theorem C3_dry_run_no_write_witness : c3Step.2 = c3FS :=
  C3_dry_run_no_write c3App c3FS "dark".data c3Step.1 c3Step.2 rfl (by rfl)

lemma foldr_cons_id : ∀ s : Str, s.foldr (fun c acc => c :: acc) [] = s := by
  intro s
  induction s with
  | nil => rfl
  | cons c cs ih => simp only [List.foldr_cons, ih]

lemma foldr_cons_nil_id (s : Str) : s.foldr (fun c acc => c :: ([] ++ acc)) [] = s := by
  have hfn : (fun (c : Char) (acc : Str) => c :: ([] ++ acc)) = fun c acc => c :: acc := by
    funext c acc
    rw [List.nil_append]
  rw [hfn]
  exact foldr_cons_id s

lemma replLoop_self (t : Str) (ht : t ≠ []) :
    ∀ fuel s, s.length ≤ fuel → replLoop t t fuel s = s := by
  intro fuel
  induction fuel with
  | zero => intro s h; rw [replLoop]
  | succ fuel ih =>
    intro s h
    cases s with
    | nil => rw [replLoop]
    | cons c rest =>
      rw [replLoop]
      by_cases hp : t.isPrefixOf (c :: rest)
      · rw [if_pos hp]
        obtain ⟨u, hu⟩ := List.isPrefixOf_iff_prefix.mp hp
        have hdrop : (c :: rest).drop t.length = u := by rw [← hu, List.drop_left]
        have hlt : u.length ≤ fuel := by
          have := congrArg List.length hu
          simp only [List.length_append, List.length_cons] at this
          have htl : 1 ≤ t.length := List.length_pos.mpr ht
          simp only [List.length_cons] at h
          omega
        rw [hdrop, ih u hlt, hu]
      · rw [if_neg hp]
        have : rest.length ≤ fuel := by
          simp only [List.length_cons] at h
          omega
        rw [ih rest this]

lemma pyReplace_self (s t : Str) : pyReplace s t t = s := by
  unfold pyReplace
  by_cases ht : t = []
  · rw [if_pos ht]
    subst ht
    rw [List.nil_append]
    exact foldr_cons_nil_id s
  · rw [if_neg ht]
    exact replLoop_self t ht s.length s (le_refl _)

lemma find_snd_props {q : Str} {ls : List Str} {i : Int} {tok : Str}
    (h : find q ls = (i, tok)) (hi : i ≠ -1) :
    tok ≠ [] ∧ ∀ c ∈ tok, nonspace c = true := by
  obtain ⟨pre, suf, -, j, -, -, hsearch, -⟩ := find_inv h hi
  obtain ⟨h1, h2, -⟩ := searchLine_sound _ _ hsearch
  exact ⟨h1, h2⟩



lemma determine_next_theme_none_inv {a : App} {cur mode : Str}
    (h : a.determine_next_theme cur mode = none) :
    a.get_mode mode = none ∨ a.get_mode mode = some [] := by
  unfold App.determine_next_theme at h
  split at h
  next heq => left; exact heq
  next tm heq =>
    split at h
    next htm => right; rw [heq, htm]
    next htm => simp at h

lemma has_changes_none_inv {a : App} {fs : FS} {mode : Str}
    (h : a.has_changes fs mode = none) :
    fs.present = false ∨
    ∃ (idx : Int) (cur : Str), find a.query fs.lines = (idx, cur) ∧ idx ≠ -1 ∧
      (a.get_mode mode = none ∨ a.get_mode mode = some []) := by
  unfold App.has_changes at h
  split at h
  next heq =>
    left
    unfold App.find_current_theme at heq
    cases hp : fs.present with
    | false => rfl
    | true =>
      rw [hp] at heq
      simp only [Bool.not_true, Bool.false_eq_true, if_false] at heq
      split at heq
      · simp at heq
      · split at heq <;> simp at heq
  next a0 idx cur? heq =>
    split at h
    · simp at h
    next cur =>
      split at h
      · simp at h
      next hidx =>
        right
        obtain ⟨hp, hne, hfind, -, ha0⟩ := find_current_theme_pos_inv heq
        subst ha0
        refine ⟨idx, cur, hfind, hidx, ?_⟩
        simp only [] at h
        split at h
        next heqd =>
          have hbad := determine_next_theme_none_inv heqd
          simpa [App.get_mode] using hbad
        next nt heqd =>
          split at h <;> simp at h

lemma has_changes_false_forward (a : App) (fs : FS) (mode : Str) (i : Int) (cur : Str)
    (hp : fs.present = true)
    (hcond : fs.lines = [] ∨
      ((find a.query fs.lines).1 = -1) ∨
      (find a.query fs.lines = (i, cur) ∧ i ≠ -1 ∧ a.get_mode mode = some cur ∧ cur ≠ [])) :
    ∃ a3, a.has_changes fs mode = some (a3, false) := by
  rcases hhc : a.has_changes fs mode with _ | ⟨a3, b⟩
  · exfalso
    rcases has_changes_none_inv hhc with hpf | ⟨idx, cur2, hf, hidx, hbad⟩
    · rw [hp] at hpf
      simp at hpf
    · rcases hcond with he | hneg | ⟨hfind, hi, hg, hcur⟩
      · rw [he] at hf
        unfold find at hf
        simp only [List.length_nil, if_pos] at hf
        exact absurd ((Prod.mk.injEq _ _ _ _).mp hf).1.symm hidx
      · rw [hf] at hneg
        exact hidx hneg
      · rw [hfind] at hf
        obtain ⟨hie, hce⟩ := (Prod.mk.injEq _ _ _ _).mp hf
        subst hie
        subst hce
        rcases hbad with hb | hb
        · rw [hg] at hb
          simp at hb
        · rw [hg] at hb
          simp only [Option.some.injEq] at hb
          exact hcur hb
  · cases b with
    | false => exact ⟨a3, rfl⟩
    | true =>
      exfalso
      obtain ⟨hp2, hne2, idx, cur2, tm, hfind2, hidx2, hg2, htm2, ha3, hcm2, hneq2⟩ :=
        has_changes_true_inv hhc
      rcases hcond with he | hneg | ⟨hfind, hi, hg, hcur⟩
      · exact hne2 he
      · rw [hfind2] at hneg
        exact hidx2 hneg
      · rw [hfind] at hfind2
        obtain ⟨hie, hce⟩ := (Prod.mk.injEq _ _ _ _).mp hfind2
        subst hie
        subst hce
        rw [hg] at hg2
        have htc : tm = cur := by
          have := Option.some.inj hg2
          exact this.symm
        rw [htc] at hneq2
        exact hneq2 (pyReplace_self _ _).symm



/-- C2 amended: after a successful (`applied`) update for mode `M`,
re-computing `has_changes M` on the resulting file returns `false`,
provided the matcher on the updated file either finds no match or captures
a value equal to the target value of mode `M` (the counterexample
`C2_counterexample` shows the claim fails without this proviso). -/
theorem C2_amended_idempotence (a : App) (fs : FS) (mode : Str) (a2 : App) (fs2 : FS)
    (hupd : a.update fs mode = some (a2, fs2))
    (happ : a2.status = appliedSt)
    (hcap : (find a2.query fs2.lines).1 = -1 ∨
      a2.get_mode mode = some (find a2.query fs2.lines).2) :
    ∃ a3, a2.has_changes fs2 mode = some (a3, false) := by
  have hp2 : fs2.present = true := by
    rcases update_inv hupd with ⟨a1, h1, h2, h3⟩ | ⟨a1, h1, h2, h3, h4⟩ |
      ⟨a1, h1, h2, h3, h4, h5⟩ | ⟨a1, h1, h2, h3, h4, h5⟩
    · rw [h3]
      exact (has_changes_some_fields h1).2.2.2.2.2
    · rw [h4]
      exact (has_changes_some_fields h1).2.2.2.2.2
    · rw [h5]
      exact (has_changes_some_fields h1).2.2.2.2.2
    · rw [h5]
      exact (has_changes_some_fields h1).2.2.2.2.2
  rcases hfind : find a2.query fs2.lines with ⟨i2, cur2⟩
  by_cases hi2 : i2 = -1
  · exact has_changes_false_forward a2 fs2 mode i2 cur2 hp2
      (Or.inr (Or.inl (by rw [hfind, hi2])))
  · rcases hcap with hc1 | hc2
    · rw [hfind] at hc1
      exact absurd hc1 hi2
    · rw [hfind] at hc2
      have hcur : cur2 ≠ [] := (find_snd_props hfind hi2).1
      exact has_changes_false_forward a2 fs2 mode i2 cur2 hp2
        (Or.inr (Or.inr ⟨hfind, hi2, hc2, hcur⟩))

/-- C2 counterexample: on the file `T=T`, `T=old` with query `T={theme}`
and light value `L`, the light update succeeds with status `applied`
(rewriting line 0 to `L=L`, which destroys the query match there), and
re-computing `has_changes` then matches line 1 and returns `true`, not
`false`: the update is not idempotent. -/
theorem C2_counterexample :
    c2App.update c2FS "light".data = some c2Step ∧
    c2Step.1.status = appliedSt ∧
    (c2Step.1.has_changes c2Step.2 "light".data).map Prod.snd = some true :=
  ⟨by rfl, by rfl, by rfl⟩

/-- C2 witness: the single-line file `T=old` updated to light `L`;
re-computing `has_changes` returns `false`. -/
theorem C2_amended_idempotence_witness :
    ∃ a3, c2wStep.1.has_changes c2wStep.2 "light".data = some (a3, false) :=
  C2_amended_idempotence c2wApp c2wFS "light".data c2wStep.1 c2wStep.2 (by rfl) (by rfl)
    (Or.inr (by rfl))

/-- C4: for a file in which exactly one line `i` matches the query, a
successful non-dry-run update (status `applied`) writes back the file with
only line `i` replaced (by the computed next line); every other line is
byte-identical (terminators included, since lines carry them). -/
theorem C4_update_single_line (a : App) (fs : FS) (mode : Str) (pre suf : Str) (i : Nat)
    (a2 : App) (fs2 : FS)
    (hsplit : splitTheme a.query = some (pre, suf))
    (hi : i < fs.lines.length)
    (hm : LineMatches pre suf (fs.lines.getD i []))
    (huniq : ∀ k, k < fs.lines.length → k ≠ i → ¬ LineMatches pre suf (fs.lines.getD k []))
    (hupd : a.update fs mode = some (a2, fs2))
    (happ : a2.status = appliedSt) :
    fs2.lines = fs.lines.set i a2.next_theme ∧
      ∀ k, k ≠ i → fs2.lines.getD k [] = fs.lines.getD k [] := by
  rcases update_inv hupd with ⟨a1, h1, h2, h3⟩ | ⟨a1, h1, h2, h3, h4⟩ |
    ⟨a1, h1, h2, h3, h4, h5⟩ | ⟨a1, h1, h2, h3, h4, h5⟩
  · have hst : a2.status = noChangesSt := by rw [h2]
    rw [happ] at hst
    exact absurd hst (by decide)
  · have hst : a2.status = errNotUpdatedSt := by rw [h3]
    rw [happ] at hst
    exact absurd hst (by decide)
  · have hst : a2.status = dryRunSt := by rw [h4]
    rw [happ] at hst
    exact absurd hst (by decide)
  · obtain ⟨hp, hne, idx, cur, tm, hfind, hidx, hg, htm, ha1, hcm, hneq⟩ := has_changes_true_inv h1
    obtain ⟨pre2, suf2, hsplit2, j, hj1, hj2, hj3, hj4⟩ := find_inv hfind hidx
    rw [hsplit] at hsplit2
    obtain ⟨hpe, hse⟩ := Prod.mk.inj (Option.some.inj hsplit2)
    subst hpe
    subst hse
    have hLMj : LineMatches pre suf (fs.lines.getD j []) :=
      lineMatches_iff.mpr (by rw [hj3]; rfl)
    have hji : j = i := by
      by_contra hne2
      exact huniq j hj2 hne2 hLMj
    subst hji
    have hnext : a2.next_theme = a1.next_theme := by
      rw [h4]
      simp [App.replace]
    have hlines2 : fs2.lines = pySet a1.lines a1.line_idx a1.next_theme := by
      rw [h5]
    have ha1lines : a1.lines = fs.lines := by rw [ha1]
    have hlidx : a1.line_idx = ((j : Nat) : Int) := by rw [ha1, hj1]
    constructor
    · rw [hlines2, hlidx, ha1lines, hnext]
      unfold pySet
      rw [if_neg (by omega)]
      simp
    · intro k hk
      rw [hlines2, hlidx, ha1lines]
      unfold pySet
      rw [if_neg (by omega)]
      have htn : ((j : Nat) : Int).toNat = j := by omega
      rw [htn]
      rw [List.getD_eq_getElem?_getD, List.getD_eq_getElem?_getD]
      rw [List.getElem?_set_ne (by omega)]



lemma find_current_theme_found (a : App) (fs : FS)
    (hp : fs.present = true) (hne : fs.lines ≠ [])
    (hfind : (find a.query fs.lines).1 ≠ -1) :
    a.find_current_theme fs =
      some ({ a with lines := fs.lines },
        (find a.query fs.lines).1, some (find a.query fs.lines).2) := by
  unfold App.find_current_theme
  rw [hp]
  simp only [Bool.not_true, Bool.false_eq_true, if_false]
  rw [if_neg (by simpa using hne)]
  rw [if_neg hfind]

/-- C6 amended: `validate` returns early with the file message when the
file is empty; the missing-dark and missing-light checks do not
short-circuit, and when both dark and light are empty (file non-empty, the
remaining checks passing) the recorded message is that of the LAST of the
two checks, `no light theme specified.` — not the first, as the claim
stated (see `C6_counterexample`). -/
theorem C6_validate_messages (a : App) (fs : FS) :
    (a.file = [] → a.validate fs = { a with error := ⟨"no file specified.".data, true⟩ }) ∧
    (a.file ≠ [] → a.dark = [] → a.light = [] → a.query ≠ [] →
      containsTheme a.query = true → fs.present = true → fs.lines ≠ [] →
      (find a.query fs.lines).1 ≠ -1 →
      (a.validate fs).error = ⟨"no light theme specified.".data, true⟩) := by
  constructor
  · intro hf
    unfold App.validate
    rw [if_pos hf]
  · intro hf hd hl hq hct hp hne hfind
    unfold App.validate App.find_current_theme
    simp [hf, hd, hl, hq, hct, hp, hne, hfind]



/-- C6 counterexample: an app with both dark and light empty (file and
query fine) records `no light theme specified.`, not the first failing
check's message `no dark theme specified.`. -/
theorem C6_counterexample :
    c6App.file ≠ [] ∧ c6App.dark = [] ∧ c6App.light = [] ∧
    (c6App.validate c6FS).error.mesg = "no light theme specified.".data ∧
    (c6App.validate c6FS).error.mesg ≠ "no dark theme specified.".data :=
  ⟨by decide, rfl, rfl, by rfl, by decide⟩

/-- C6 witness: both clauses of the amended theorem at concrete inputs. -/
theorem C6_validate_messages_witness :
    c6FileApp.validate c6FS = { c6FileApp with error := ⟨"no file specified.".data, true⟩ } ∧
    (c6App.validate c6FS).error = ⟨"no light theme specified.".data, true⟩ :=
  ⟨(C6_validate_messages c6FileApp c6FS).1 rfl,
   (C6_validate_messages c6App c6FS).2 (by decide) rfl rfl (by decide) (by rfl) rfl
     (by decide) (by decide)⟩

lemma getD_drop (l : List Str) (m k : Nat) : (l.drop m).getD k [] = l.getD (m + k) [] := by
  rw [List.getD_eq_getElem?_getD, List.getD_eq_getElem?_getD, List.getElem?_drop]

lemma take_four {xs : List Str} (h : 4 ≤ xs.length) :
    xs.take 4 = [xs.getD 0 [], xs.getD 1 [], xs.getD 2 [], xs.getD 3 []] := by
  match xs, h with
  | x0 :: x1 :: x2 :: x3 :: rest, _ => rfl

/-- C7 amended: the context window of `diff` is the Python slice
`lines[max(0, i-2) : min(N, i+2)]`, whose end is exclusive: in bounds it
holds the FOUR lines `i-2`, `i-1`, `i`, `i+1` — two before and only one
after the matched line, not two after as the claim stated (see
`C7_counterexample`). -/
theorem C7_diff_window (a : App) (fs : FS) (mode : Str) (a1 : App) (i : Nat)
    (hmode : mode ≠ [])
    (herr : a.error.occurred = false)
    (hhc : a.has_changes fs mode = some (a1, true))
    (hidx : a1.line_idx = (i : Int))
    (h2 : 2 ≤ i) (hbound : i + 2 ≤ a1.lines.length) :
    a.diff_chunks fs mode = some (some (
      a1.lines.getD (i-2) [] ++ (a1.lines.getD (i-1) [] ++ (a1.lines.getD i [] ++
        (a1.lines.getD (i+1) [] ++ []))),
      pyReplace (a1.lines.getD (i-2) [] ++ (a1.lines.getD (i-1) [] ++ (a1.lines.getD i [] ++
        (a1.lines.getD (i+1) [] ++ [])))) a1.original a1.next_theme)) := by
  unfold App.diff_chunks
  rw [if_neg hmode]
  rw [if_neg (by simp [herr])]
  rw [hhc]
  simp only []
  have hstart : (max 0 (a1.line_idx - 2)).toNat = i - 2 := by
    rw [hidx]; omega
  have hend : (min (a1.lines.length : Int) (a1.line_idx + 2)).toNat = i + 2 := by
    rw [hidx]; omega
  rw [hstart, hend]
  have hslice : pySlice a1.lines (i - 2) (i + 2) =
      [a1.lines.getD (i-2) [], a1.lines.getD (i-1) [], a1.lines.getD i [],
       a1.lines.getD (i+1) []] := by
    unfold pySlice
    rw [List.drop_take]
    have h4 : i + 2 - (i - 2) = 4 := by omega
    rw [h4]
    rw [take_four (by rw [List.length_drop]; omega)]
    have e0 : (a1.lines.drop (i-2)).getD 0 [] = a1.lines.getD (i-2) [] := by
      rw [getD_drop, Nat.add_zero]
    have e1 : (a1.lines.drop (i-2)).getD 1 [] = a1.lines.getD (i-1) [] := by
      rw [getD_drop]
      congr 1
      omega
    have e2 : (a1.lines.drop (i-2)).getD 2 [] = a1.lines.getD i [] := by
      rw [getD_drop]
      congr 1
      omega
    have e3 : (a1.lines.drop (i-2)).getD 3 [] = a1.lines.getD (i+1) [] := by
      rw [getD_drop]
      congr 1
      omega
    rw [e0, e1, e2, e3]
  rw [hslice]
  rfl

/-- C7 counterexample: six lines with the match at index 2; the code's
window is lines 0-3 (four lines), which differs from the claimed five-line
window lines 0-4. -/
theorem C7_counterexample :
    c7App.diff_chunks c7FS "dark".data =
      some (some ("a\nb\nT=x\nd\n".data, "a\nb\nT=D\nd\n".data)) ∧
    joinStr (pySlice c7FS.lines 0 5) = "a\nb\nT=x\nd\ne\n".data ∧
    "a\nb\nT=x\nd\n".data ≠ "a\nb\nT=x\nd\ne\n".data :=
  ⟨by rfl, by rfl, by decide⟩



/-- C8 amended: `get` resolves `light`/`dark` to the configured paths, but
`set` evaluates `randx()` eagerly as the fallback argument for EVERY mode,
so a random-directory failure propagates out of `set` even when the mode is
`light` or `dark`; only when `randx` succeeds does `set` apply the
configured path for those modes (see `C8_counterexample`). -/
theorem C8_wallpaper_set (w : Wallpaper) (fs : WallFS) (pick : Nat) (fallback : Str) :
    w.get "light".data fallback = w.light ∧
    w.get "dark".data fallback = w.dark ∧
    (∀ e, w.randx fs pick = Except.error e → ∀ mode, w.set fs pick mode = Except.error e) ∧
    (∀ fb, w.randx fs pick = Except.ok fb →
      w.set fs pick "light".data = w.apply fs w.light ∧
      w.set fs pick "dark".data = w.apply fs w.dark) := by
  refine ⟨rfl, ?_, ?_, ?_⟩
  · unfold Wallpaper.get
    rw [if_neg (by decide), if_pos rfl]
  · intro e he mode
    unfold Wallpaper.set
    rw [he]
  · intro fb hfb
    have hgl : w.get "light".data fb = w.light := rfl
    have hgd : w.get "dark".data fb = w.dark := by
      unfold Wallpaper.get
      rw [if_neg (by decide), if_pos rfl]
    constructor
    · unfold Wallpaper.set
      rw [hfb]
      show w.apply fs (w.get "light".data fb) = w.apply fs w.light
      rw [hgl]
    · unfold Wallpaper.set
      rw [hfb]
      show w.apply fs (w.get "dark".data fb) = w.apply fs w.dark
      rw [hgd]

/-- C8 counterexample: a wallpaper with a valid light path but a missing
random directory: `set` with mode `light` raises the random-path
`FileNotFoundError` instead of applying the light path. -/
theorem C8_counterexample :
    c8FS.isFile c8W.light = true ∧
    c8W.error.occurred = false ∧
    c8W.set c8FS 0 "light".data = Except.error "random wallpaper path not found.".data :=
  ⟨by rfl, rfl, by rfl⟩

/-- C9: `SysOps.pid` does NOT return an empty list when the lookup utility
reports no matches: `subprocess.check_output` raises `CalledProcessError`
on `pidof`'s nonzero exit status and the code does not catch it, so the
error propagates (first conjunct); on success the output is parsed into
pids (second conjunct).  The repository's own test
`test_sysops_pid_with_no_processes` asserts the empty-list behaviour the
claim states, so this is a divergence of the code from its tests. -/
theorem C9_pid_no_match :
    SysOps.pid (Except.error 1) = Except.error 1 ∧
    SysOps.pid (Except.ok "123 456".data) = Except.ok [123, 456] :=
  ⟨rfl, by rfl⟩

lemma process_theme_apps_count (mode : Str) :
    ∀ (apps : List (App × FS)) (res : List (App × FS) × List Str × Nat),
      process_theme_apps mode apps = some res →
      res.2.2 = (res.1.filter (fun p => !p.1.error.occurred)).length := by
  intro apps
  induction apps with
  | nil =>
    intro res h
    rw [process_theme_apps] at h
    obtain rfl := Option.some.inj h
    rfl
  | cons p rest ih =>
    intro res h
    obtain ⟨a, fs⟩ := p
    rw [process_theme_apps] at h
    split at h
    · simp at h
    next a1 fs1 hpa =>
      split at h
      · simp at h
      next ps cs n hrec =>
        have hn := ih (ps, cs, n) hrec
        by_cases herr : a1.error.occurred
        · rw [if_pos herr] at h
          obtain rfl := Option.some.inj h
          simp only [List.filter_cons, herr, Bool.not_true]
          exact hn
        · rw [if_neg herr] at h
          obtain rfl := Option.some.inj h
          have herr2 : a1.error.occurred = false := by simpa using herr
          simp only [] at hn
          simp only [List.filter_cons, herr2, Bool.not_false, if_true, ite_true,
            List.length_cons]
          rw [hn]

/-- C10: after the `process_theme` loop the updates counter equals the
number of processed applications whose error flag is unset — the status
(`no changes` included) and whether any disk changed play no role — and
`handle_theme_updates` runs the mode commands, collected app commands and
restarts exactly when that counter is positive. -/
theorem C10_updates_and_orchestration (mode : Str) (apps : List (App × FS))
    (modeCmds restarts : List Str) (res : List (App × FS) × List Str × Nat)
    (h : process_theme_apps mode apps = some res) :
    res.2.2 = (res.1.filter (fun p => !p.1.error.occurred)).length ∧
    ((handle_theme_updates res.2.2 modeCmds res.2.1 restarts).entered = true ↔ 0 < res.2.2) ∧
    (0 < res.2.2 →
      handle_theme_updates res.2.2 modeCmds res.2.1 restarts =
        ⟨true, modeCmds, res.2.1, restarts⟩) := by
  refine ⟨process_theme_apps_count mode apps res h, ?_, ?_⟩
  · unfold handle_theme_updates
    by_cases hz : res.2.2 = 0
    · rw [if_pos hz]
      simp [hz, Orchestration]
    · rw [if_neg hz]
      simp only [true_iff]
      omega
  · intro hpos
    unfold handle_theme_updates
    rw [if_neg (by omega)]

/-- C10 witness: a single app already at the dark value: its status is
`no changes`, its file is unchanged on disk, yet the counter is 1 and the
command/restart phase is entered. -/
theorem C10_updates_witness :
    (c10Res.2.2 = (c10Res.1.filter (fun p => !p.1.error.occurred)).length ∧
      ((handle_theme_updates c10Res.2.2 [] c10Res.2.1 []).entered = true ↔ 0 < c10Res.2.2) ∧
      (0 < c10Res.2.2 →
        handle_theme_updates c10Res.2.2 [] c10Res.2.1 [] = ⟨true, [], c10Res.2.1, []⟩)) ∧
    c10Res.2.2 = 1 ∧
    c10Res.1.map Prod.snd = [c10FS] ∧
    (c10Res.1.map (fun p => p.1.status)) = [noChangesSt] :=
  ⟨C10_updates_and_orchestration "dark".data [(c10App, c10FS)] [] [] c10Res (by rfl),
   by rfl, by rfl, by rfl⟩



/-- C4 witness: a three-line file whose only match is line 1; the dark
update replaces only that line. -/
theorem C4_update_single_line_witness :
    c4Step.2.lines = c4FS.lines.set 1 c4Step.1.next_theme ∧
      ∀ k, k ≠ 1 → c4Step.2.lines.getD k [] = c4FS.lines.getD k [] :=
  C4_update_single_line c4App c4FS "dark".data "T=".data [] 1 c4Step.1 c4Step.2
    (by decide) (by decide)
    ⟨[], "x".data, "\n".data, by decide, by decide, by decide⟩
    (by
      intro k hk hne hLM
      have hs := lineMatches_iff.mp hLM
      have hk3 : k < 3 := hk
      interval_cases k
      · exact absurd hs (by decide)
      · exact hne rfl
      · exact absurd hs (by decide))
    (by rfl) (by rfl)

/-- C7 witness: the six-line file with the match at index 2 in bounds; the
window is built from lines 0 to 3. -/
theorem C7_diff_window_witness :
    c7App.diff_chunks c7FS "dark".data = some (some (
      c7Step.1.lines.getD 0 [] ++ (c7Step.1.lines.getD 1 [] ++ (c7Step.1.lines.getD 2 [] ++
        (c7Step.1.lines.getD 3 [] ++ []))),
      pyReplace (c7Step.1.lines.getD 0 [] ++ (c7Step.1.lines.getD 1 [] ++
        (c7Step.1.lines.getD 2 [] ++ (c7Step.1.lines.getD 3 [] ++ []))))
        c7Step.1.original c7Step.1.next_theme)) :=
  C7_diff_window c7App c7FS "dark".data c7Step.1 2 (by decide) rfl (by rfl) (by rfl)
    (by omega) (by decide)

end Pythemes
